import Mathlib

/-!
Verification of the BuildFlow VCS synchronization engine.

This file is a shallow embedding, in Lean 4, of the parts of
`src/modules/vcs/svn_ops.py` and `src/modules/vcs/git_ops.py` that the
frozen claims are about.  Pure control flow and data manipulation are
translated directly; interactions with the outside world (spawned `svn`
and `git` subprocesses, the file system) are abstracted into explicit
oracle inputs (captured exit code / stdout / stderr of each subprocess,
the externals declared at each path, and so on), and the commands a
function would issue are materialized as explicit action traces.

Python-specific semantics are modelled explicitly:
`str in str` is substring containment, `int(s)` is a partial parse,
truthiness of `None` / `""` is `pyTruthyStrOpt`, `list.sort(key=f)` is a
stable ascending sort (`List.insertionSort` with the key order),
`str.splitlines` / `"\n".join` / `str.strip("/")` / `str.count("/")` are
given small executable models.
-/

/-- Python's `pat in s` substring test (`svn_ops.py` uses it on stderr). -/
def strContains (s pat : String) : Bool :=
  decide (pat.data <:+: s.data)

/-- Python truthiness of an `Optional[str]`: `None` and `""` are falsy. -/
def pyTruthyStrOpt : Option String → Bool
  | none => false
  | some s => !(s == "")

/-- Numeric value of a list of decimal digit characters. -/
def digitsVal (l : List Char) : Nat :=
  l.foldl (fun acc c => 10 * acc + (c.toNat - '0'.toNat)) 0

/-- ASCII whitespace as stripped by Python's `int(str)`. -/
def isPyWS (c : Char) : Bool :=
  c = ' ' || c = '\t' || c = '\n' || c = '\r' || c = '\x0b' || c = '\x0c'

/-- Python `int(s)` on the ASCII fragment used for SVN revision strings:
optional surrounding whitespace, optional sign, then a nonempty run of
decimal digits; everything else fails (`ValueError`, i.e. `none`). -/
def pyInt (s : String) : Option Int :=
  let l := (((s.data.dropWhile isPyWS).reverse.dropWhile isPyWS).reverse)
  match l with
  | '-' :: rest =>
      if rest ≠ [] ∧ rest.all (·.isDigit) then some (-(digitsVal rest : Int)) else none
  | '+' :: rest =>
      if rest ≠ [] ∧ rest.all (·.isDigit) then some (digitsVal rest : Int) else none
  | rest =>
      if rest ≠ [] ∧ rest.all (·.isDigit) then some (digitsVal rest : Int) else none

-- ---------------------------------------------------------------------
-- Command executor (`runCmd`, svn_ops.py lines 93-134)
-- ---------------------------------------------------------------------

/-- The single exception class `VCSException` of `svn_ops.py`; it carries
only a message string. -/
structure VCSException where
  msg : String
deriving DecidableEq, Repr

/-- Captured result of one subordinate process (exit code, stdout, stderr),
the oracle input standing for `subprocess.run`. -/
structure CmdResult where
  code : Int
  out : String
  err : String
deriving DecidableEq, Repr

/-- The failure message built by `runCmd` (`f"命令执行失败: ..."`);
its final component is the captured stderr. -/
def runCmdFailMsg (args : List String) (code : Int) (out err : String) : String :=
  "命令执行失败: " ++ String.intercalate " " args ++ "\n退出码: " ++ toString code
    ++ "\nOUT:\n" ++ out ++ "\nERR:\n" ++ err

/-- `runCmd(args, cwd, check)`: the subprocess result `r` is an oracle
input.  With `check=False` it returns `(returncode, stdout, stderr)`;
with `check=True` a nonzero exit raises `VCSException` whose message
embeds the captured stderr. -/
def runCmd (args : List String) (r : CmdResult) (check : Bool) :
    Except VCSException (Int × String × String) :=
  if check ∧ r.code ≠ 0 then
    .error ⟨runCmdFailMsg args r.code r.out r.err⟩
  else
    .ok (r.code, r.out, r.err)

-- ---------------------------------------------------------------------
-- Lock recovery wrapper (`SvnOps._svn`, svn_ops.py lines 158-188)
-- ---------------------------------------------------------------------

/-- An observable action of the SVN layer: issuing one `svn` command in a
repository, or running one `svn cleanup` pass there. -/
inductive SvnAction
  | runCommand (repo : String) (cmd : List String)
  | cleanupRun (repo : String) (aggressive : Bool)
deriving DecidableEq, Repr

def isCleanupAction : SvnAction → Bool
  | .cleanupRun _ _ => true
  | _ => false

def isRunAction : SvnAction → Bool
  | .runCommand _ _ => true
  | _ => false

/-- The fixed working-copy-lock stderr signatures tested by `_svn`:
`"is locked" in err or "E155004" in err or "run 'svn cleanup'" in err`. -/
def lockSignature (err : String) : Bool :=
  strContains err "is locked" || strContains err "E155004"
    || strContains err "run \x27svn cleanup\x27"

/-- The failure message built by `_svn` on a strict-mode failure. -/
def svnFailMsg (cmd : List String) (r : CmdResult) : String :=
  "svn 执行失败: " ++ String.intercalate " " cmd ++ "\n退出码: " ++ toString r.code
    ++ "\nOUT:\n" ++ r.out ++ "\nERR:\n" ++ r.err

/-- `SvnOps._svn(args, check)`.  `first` is the captured result of the
first `runCmd` invocation and `retry` the captured result of the
re-issued command (consulted only when the retry happens).  Returns the
trace of actions issued together with the final outcome. -/
def svn_call (repo : String) (args : List String) (check : Bool)
    (first retry : CmdResult) :
    List SvnAction × Except VCSException CmdResult :=
  let cmd := "svn" :: args
  let locked := lockSignature first.err
  if first.code ≠ 0 ∧ locked = true then
    ([.runCommand repo cmd, .cleanupRun repo false, .runCommand repo cmd],
     if check ∧ retry.code ≠ 0 then .error ⟨svnFailMsg cmd retry⟩ else .ok retry)
  else
    ([.runCommand repo cmd],
     if check ∧ first.code ≠ 0 then .error ⟨svnFailMsg cmd first⟩ else .ok first)

-- ---------------------------------------------------------------------
-- Change records (svn_ops.py lines 38-86)
-- ---------------------------------------------------------------------

/-- `FileChange`: one file-level change inside a revision. -/
structure FileChange where
  path : String
  action : String
  diff : Option String := none
deriving DecidableEq, Repr

/-- `RevisionChange`: one SVN revision with author, date, message and
file-level changes. -/
structure RevisionChange where
  revision : String
  author : String
  date : String
  message : String
  files : List FileChange
deriving DecidableEq, Repr

/-- `UpdateResult`: overall result of one update. -/
structure UpdateResult where
  from_rev : String
  to_rev : String
  revision_changes : List RevisionChange
deriving DecidableEq, Repr

/-- The sort key `_key` of `collect_update_result`:
`int(c.revision)` with `ValueError` mapped to `0`. -/
def revKey (c : RevisionChange) : Int :=
  (pyInt c.revision).getD 0

/-- Order on `RevisionChange` induced by `revKey`; `all_changes.sort(key=_key)`
is a stable ascending sort under this order. -/
def revLE (a b : RevisionChange) : Prop := revKey a ≤ revKey b

instance : DecidableRel revLE := fun a b =>
  inferInstanceAs (Decidable (revKey a ≤ revKey b))

instance : IsTotal RevisionChange revLE :=
  ⟨fun a b => Int.le_total (revKey a) (revKey b)⟩

instance : IsTrans RevisionChange revLE :=
  ⟨fun _ _ _ h h2 => le_trans h h2⟩

/-- The aggregation step of `collect_update_result` (lines 838-855): the
main repository's records and every external's records are concatenated
in order and sorted (stably, ascending) by `revKey`.  `exts` is the
summary's `"ext"` dict as an (url, records) association list in insertion
order. -/
def aggregated_changes (main : List RevisionChange)
    (exts : List (String × List RevisionChange)) : List RevisionChange :=
  List.insertionSort revLE (main ++ (exts.map (·.2)).flatten)

-- ---------------------------------------------------------------------
-- Repository state and `collect_update_result` (svn_ops.py 147-152,
-- 473-488, 809-861)
-- ---------------------------------------------------------------------

/-- The mutable revision-tracking state of a `SvnOps` object:
`before_update_rev` / `after_update_rev`, both `None` until `update_to`
runs. -/
structure SvnState where
  before_update_rev : Option String
  after_update_rev : Option String
deriving DecidableEq, Repr

/-- `SvnOps.__init__`: both revision markers start as `None`. -/
def initSvnState : SvnState :=
  { before_update_rev := none, after_update_rev := none }

/-- `update_to`: records the revision before the update and the revision
after it (the two `get_current_revision()` outputs, given as oracles). -/
def update_to_state (rev_before rev_after : String) : SvnState :=
  { before_update_rev := some rev_before, after_update_rev := some rev_after }

/-- Message of the `VCSException` raised when aggregation runs before
`update_to`. -/
def updateNotRunMsg : String := "update_to() 未执行，无法生成更新结果"

/-- `collect_update_result` (lines 809-861).  The collected summary
(main-repository records plus per-external records over the resolved time
window) is an oracle input; the guard and the aggregation are translated
directly: if `before_update_rev` or `after_update_rev` is not truthy the
call raises, otherwise it returns the merged, sorted `UpdateResult`. -/
def collect_update_result (st : SvnState) (main : List RevisionChange)
    (exts : List (String × List RevisionChange)) :
    Except VCSException UpdateResult :=
  if !pyTruthyStrOpt st.before_update_rev || !pyTruthyStrOpt st.after_update_rev then
    .error ⟨updateNotRunMsg⟩
  else
    .ok { from_rev := st.before_update_rev.getD ""
          to_rev := st.after_update_rev.getD ""
          revision_changes := aggregated_changes main exts }

-- ---------------------------------------------------------------------
-- Recursive external discovery (`get_all_externals`, svn_ops.py 298-318)
-- ---------------------------------------------------------------------

/-- State threaded through the recursive scan of `get_all_externals`:
the per-traversal `visited` set, the accumulated `result` list, and the
list of paths that have actually been processed (i.e. on which
`get_externals` was invoked), in processing order. -/
structure ScanState (P : Type) where
  visited : Finset P
  result : List P
  processed : List P
deriving DecidableEq

-- In what follows, the world the scan runs against is: `g p`, the list of
-- external local paths declared at working copy `p` (the parse of
-- `svn propget svn:externals -R`), and `isDir p`, i.e. `os.path.isdir(p)`.
-- Physical paths form the finite type `P`.
mutual

/-- The inner `scan(path)` closure of `get_all_externals`:
return immediately if `path` is in `visited`, otherwise add it, read the
externals declared there and walk them.  `fuel` bounds the recursion
depth of path expansions; `get_all_externals_spec` below shows that
`Fintype.card P` fuel always suffices, i.e. the call is finite. -/
def scanF {P : Type} [DecidableEq P] (g : P → List P) (isDir : P → Bool)
    (fuel : Nat) (st : ScanState P) (path : P) : Option (ScanState P) :=
  if path ∈ st.visited then
    some st
  else
    match fuel with
    | 0 => none
    | fuel' + 1 =>
        scanChildrenF g isDir fuel'
          { visited := insert path st.visited
            result := st.result
            processed := st.processed ++ [path] }
          (g path)
termination_by (fuel, 0)

/-- The `for e in ex` loop body of `scan`: every declared external that
exists as a directory is appended to `result` and then scanned. -/
def scanChildrenF {P : Type} [DecidableEq P] (g : P → List P) (isDir : P → Bool)
    (fuel : Nat) (st : ScanState P) (children : List P) : Option (ScanState P) :=
  match children with
  | [] => some st
  | e :: rest =>
      if isDir e then
        match scanF g isDir fuel { st with result := st.result ++ [e] } e with
        | none => none
        | some st' => scanChildrenF g isDir fuel st' rest
      else
        scanChildrenF g isDir fuel st rest
termination_by (fuel, children.length + 1)

end

/-- `get_all_externals`: fresh `visited` set and `result` list, then
`scan(self.repo_path)`; returns the accumulated `result`. -/
def get_all_externals {P : Type} [DecidableEq P] [Fintype P]
    (g : P → List P) (isDir : P → Bool) (root : P) : Option (List P) :=
  (scanF g isDir (Fintype.card P)
      { visited := ∅, result := [], processed := [] } root).map ScanState.result

/-- Invariant of the scan: the processed list has no duplicates and every
processed path is recorded in the visited set. -/
def scanInv {P : Type} (st : ScanState P) : Prop :=
  st.processed.Nodup ∧ ∀ x ∈ st.processed, x ∈ st.visited

-- ---------------------------------------------------------------------
-- Workspace cleaning (`ensure_clean_workspace` / `clean_externals`,
-- svn_ops.py lines 264-275 and 320-326)
-- ---------------------------------------------------------------------

/-- Observable cleaning steps of `ensure_clean_workspace` at one path:
`revert_local_changes` and the non-aggressive `cleanup`. -/
inductive CleanAction (P : Type)
  | revertLocal (p : P)
  | cleanupPass (p : P)
deriving DecidableEq

mutual

/-- `ensure_clean_workspace`: revert local changes and run cleanup at
this path, then `clean_externals`.  `fuel` bounds the depth of the
mutual recursion (in Python: the interpreter stack).  Returning `none`
means no recursion budget of that depth completes the call. -/
def ensure_clean_workspaceF {P : Type} [DecidableEq P] [Fintype P]
    (g : P → List P) (isDir : P → Bool) (fuel : Nat) (path : P) :
    Option (List (CleanAction P)) :=
  match fuel with
  | 0 => none
  | fuel' + 1 =>
      match get_all_externals g isDir path with
      | none => none
      | some exts =>
          (clean_externals_listF g isDir fuel' exts).map
            (fun acc => [CleanAction.revertLocal path, CleanAction.cleanupPass path] ++ acc)
termination_by (fuel, 0)

/-- The loop of `clean_externals`: for every element of
`get_all_externals()` that is a directory, run the full
`ensure_clean_workspace` on it — each such call builds a fresh `SvnOps`
and hence a fresh traversal. -/
def clean_externals_listF {P : Type} [DecidableEq P] [Fintype P]
    (g : P → List P) (isDir : P → Bool) (fuel : Nat) (exts : List P) :
    Option (List (CleanAction P)) :=
  match exts with
  | [] => some []
  | e :: rest =>
      if isDir e then
        match ensure_clean_workspaceF g isDir fuel e with
        | none => none
        | some acts =>
            (clean_externals_listF g isDir fuel rest).map (fun acc => acts ++ acc)
      else
        clean_externals_listF g isDir fuel rest
termination_by (fuel, exts.length + 1)

end

/-- The cyclic external graph of the testable property: path `0` (A)
declares path `1` (B) as an external and vice versa. -/
def cycG : Fin 2 → List (Fin 2) := fun i => if i = 0 then [1] else [0]

/-- In the cyclic example both paths exist as directories. -/
def cycD : Fin 2 → Bool := fun _ => true

-- ---------------------------------------------------------------------
-- Sparse checkout (`ensure_sparse_workspace`, svn_ops.py 335-405)
-- ---------------------------------------------------------------------

/-- One entry of a project's `paths` list: `item["path"]` is required,
`item.get("depth", "infinity")` is optional. -/
structure PathRule where
  path : String
  depth : Option String := none
deriving DecidableEq, Repr

/-- Python `p.strip("/")`: remove every leading and trailing `/`. -/
def pyStripSlash (s : String) : String :=
  String.mk (((s.data.dropWhile (· = '/')).reverse.dropWhile (· = '/')).reverse)

/-- Python `p.count("/")` (single-character needle: counts occurrences). -/
def pyCountSlash (s : String) : Nat :=
  s.data.countP (· = '/')

/-- `_depth(p) = p.strip("/").count("/")`, the sort key of the sparse
path rules. -/
def ruleDepth (p : String) : Nat :=
  pyCountSlash (pyStripSlash p)

/-- Order on path rules induced by `_depth`; `sorted(paths, key=...)` is
a stable ascending sort under it. -/
def ruleLE (a b : PathRule) : Prop := ruleDepth a.path ≤ ruleDepth b.path

instance : DecidableRel ruleLE := fun a b =>
  inferInstanceAs (Decidable (ruleDepth a.path ≤ ruleDepth b.path))

instance : IsTotal PathRule ruleLE :=
  ⟨fun a b => Nat.le_total (ruleDepth a.path) (ruleDepth b.path)⟩

instance : IsTrans PathRule ruleLE :=
  ⟨fun _ _ _ h h2 => le_trans h h2⟩

/-- The `svn update <rel> --depth <depth>` call a rule turns into:
`rel = item["path"].strip("/")`, `depth = item.get("depth", "infinity")`. -/
def toUpdateCall (item : PathRule) : String × String :=
  (pyStripSlash item.path, item.depth.getD "infinity")

/-- The per-rule expansion sequence of one project inside
`ensure_sparse_workspace` (lines 380-405): the rules are sorted stably
ascending by `_depth` and then issued in order.  The surrounding
checkout of the project root (lines 362-372) and the iteration over
projects are independent of this ordering. -/
def sparse_update_calls (paths : List PathRule) : List (String × String) :=
  (List.insertionSort ruleLE paths).map toUpdateCall

/-- Depth of an issued call, recomputed from its relative path (the
relative path is already stripped, under which `_depth` is just the
separator count). -/
def callDepth (c : String × String) : Nat :=
  pyCountSlash c.1

/-- Splitting a character list at every `/`. -/
def splitSlash : List Char → List (List Char)
  | [] => [[]]
  | c :: cs =>
      if c = '/' then [] :: splitSlash cs
      else
        match splitSlash cs with
        | [] => [[c]]
        | l :: ls => (c :: l) :: ls

/-- The component list of a rule path after stripping surrounding
slashes. -/
def pathComponents (p : String) : List (List Char) :=
  splitSlash (pyStripSlash p).data

/-- `p` is a proper ancestor of `q` in the path hierarchy: `p`'s
component list is a strict initial segment of `q`'s. -/
def isAncestorPath (p q : String) : Prop :=
  pathComponents p <+: pathComponents q ∧ pathComponents p ≠ pathComponents q

instance (p q : String) : Decidable (isAncestorPath p q) :=
  inferInstanceAs (Decidable (_ ∧ _))

-- ---------------------------------------------------------------------
-- Diff truncation (`get_diff`, svn_ops.py 629-652)
-- ---------------------------------------------------------------------

/-- Python `str.splitlines()` restricted to `\n` line boundaries (the
separator `svn diff` emits): every `\n` terminates a line, a final
segment without `\n` is a line, and the empty string has no lines. -/
def pySplitlinesChars : List Char → List (List Char)
  | [] => []
  | c :: cs =>
      if c = '\n' then [] :: pySplitlinesChars cs
      else
        match pySplitlinesChars cs with
        | [] => [[c]]
        | l :: ls => (c :: l) :: ls

/-- Python `"\n".join(parts)` at the character level. -/
def joinNL : List (List Char) → List Char
  | [] => []
  | [l] => l
  | l :: ls => l ++ '\n' :: joinNL ls

/-- The trailing marker line appended by `get_diff` when the diff is
truncated: `f"...(剩余 {omitted} 行已截断)"`. -/
def truncMarker (omitted : Nat) : String :=
  String.mk ("...(剩余 ".data ++ (Nat.repr omitted).data ++ " 行已截断)".data)

/-- `get_diff(revision, file_path, max_lines)`: the stdout of the
strict-mode `svn diff` call is the oracle input `out`.  If the diff has
more lines than `max_lines`, keep the first `max_lines` lines and append
one marker line; otherwise return the text unmodified. -/
def get_diff (out : String) (max_lines : Nat) : String :=
  let lines := pySplitlinesChars out.data
  if lines.length > max_lines then
    String.mk (joinNL (lines.take max_lines ++ [(truncMarker (lines.length - max_lines)).data]))
  else
    out

-- ---------------------------------------------------------------------
-- Git sync engine (`update_repo`, git_ops.py 267-368)
-- ---------------------------------------------------------------------

/-- One commit record parsed by `get_commits_between`. -/
structure GitCommit where
  commit : String
  author : String
  email : String
  date : String
  message : String
deriving DecidableEq, Repr

/-- Entry of the result's `submodules` list. -/
structure SubmoduleChange where
  path : String
  from_commit : String
  to_commit : String
  commits : List GitCommit
deriving DecidableEq, Repr

/-- The structure returned by `update_repo`. -/
structure GitSyncResult where
  repo_path : String
  repo_from : Option String
  repo_to : String
  repo_commits : List GitCommit
  submodules : List SubmoduleChange
deriving DecidableEq, Repr

/-- The git commands `update_repo` can issue (beyond the snapshot
queries); the destructive ones are the hard resets and force cleans. -/
inductive GitAction
  | cloneRepo (url dest : String) (branch : Option String) (recursive lfs : Bool)
  | resetHardMain
  | resetHardSubs
  | cleanMain
  | cleanSubs
  | checkoutBranch (b : String)
  | fetchAll
  | pullMain
  | subSync
  | subUpdate
  | lfsInstall
  | lfsPull
  | lfsPullSubs
deriving DecidableEq, Repr

def isDestructive : GitAction → Bool
  | .resetHardMain => true
  | .resetHardSubs => true
  | .cleanMain => true
  | .cleanSubs => true
  | _ => false

/-- The observable git world one `update_repo` call runs against:
whether `dest` exists, the head commit and submodule states snapshotted
before the update (used only when it exists), and the head commit and
submodule states snapshotted after.  Submodule state maps are
association lists in `git submodule status --recursive` order. -/
structure GitWorld where
  destExists : Bool
  headBefore : String
  subsBefore : List (String × String)
  headAfter : String
  subsAfter : List (String × String)
deriving DecidableEq, Repr

/-- Python `dict.get(k)` on an association list with unique keys. -/
def pyDictGet {β : Type} (k : String) : List (String × β) → Option β
  | [] => none
  | (k', v) :: rest => if k' = k then some v else pyDictGet k rest

/-- `get_commits_between(path, a, b)` (git_ops.py 222-244): returns `[]`
when `a == b`, otherwise the parsed `git log a..b` output, which is the
oracle `gitLog`. -/
def get_commits_between (gitLog : String → String → String → List GitCommit)
    (path a b : String) : List GitCommit :=
  if a = b then [] else gitLog path a b

/-- `main_before = get_head(dest) if os.path.exists(dest) else None`. -/
def mainBeforeOf (w : GitWorld) : Option String :=
  if w.destExists then some w.headBefore else none

/-- `subs_before = get_submodule_states(dest) if main_before else {}`
(Python truthiness: `None` and `""` are falsy). -/
def subsBeforeOf (w : GitWorld) : List (String × String) :=
  if pyTruthyStrOpt (mainBeforeOf w) then w.subsBefore else []

/-- `update_repo(url, dest, branch, recursive, lfs, *, reset, clean)`
(git_ops.py 267-368).  Defaults mirror the Python signature:
`branch=None, recursive=True, lfs=True, reset=True, clean=True`.
Returns the trace of git commands issued and the result structure. -/
def update_repo (w : GitWorld)
    (gitLog : String → String → String → List GitCommit)
    (url dest : String) (branch : Option String := none)
    (recursive : Bool := true) (lfs : Bool := true)
    (reset : Bool := true) (clean : Bool := true) :
    List GitAction × GitSyncResult :=
  let main_before := mainBeforeOf w
  let subs_before := subsBeforeOf w
  let actions :=
    if w.destExists = false then
      -- clone(); inside clone: lfs_install + lfs_pull when lfs is set
      [GitAction.cloneRepo url dest branch recursive lfs]
        ++ (if lfs then [GitAction.lfsInstall, GitAction.lfsPull] else [])
    else
      (if reset then
        [GitAction.resetHardMain] ++ (if recursive then [GitAction.resetHardSubs] else [])
       else [])
      ++ (if clean then
        [GitAction.cleanMain] ++ (if recursive then [GitAction.cleanSubs] else [])
       else [])
      ++ (match branch with | some b => [GitAction.checkoutBranch b] | none => [])
      ++ [GitAction.fetchAll, GitAction.pullMain]
      ++ (if recursive then [GitAction.subSync, GitAction.subUpdate] else [])
      ++ (if lfs then [GitAction.lfsInstall, GitAction.lfsPull, GitAction.lfsPullSubs] else [])
  let main_after := w.headAfter
  (actions,
   { repo_path := dest
     repo_from := main_before
     repo_to := main_after
     repo_commits :=
       if pyTruthyStrOpt main_before then
         get_commits_between gitLog dest (main_before.getD "") main_after
       else []
     submodules :=
       w.subsAfter.filterMap (fun sn =>
         match pyDictGet sn.1 subs_before with
         | some old =>
             if old ≠ "" ∧ old ≠ sn.2 then
               some { path := sn.1
                      from_commit := old
                      to_commit := sn.2
                      commits := get_commits_between gitLog (dest ++ "/" ++ sn.1) old sn.2 }
             else none
         | none => none) })

/-- A concrete git world whose destination already exists, used to
evaluate `update_repo` at its default argument values. -/
def wEx : GitWorld :=
  { destExists := true
    headBefore := "aaa"
    subsBefore := [("sub/m", "s1")]
    headAfter := "bbb"
    subsAfter := [("sub/m", "s2")] }

/-- A concrete git world whose destination does not exist yet (fresh
clone) but that materializes a submodule during the clone. -/
def wFresh : GitWorld :=
  { destExists := false
    headBefore := ""
    subsBefore := []
    headAfter := "bbb"
    subsAfter := [("sub/m", "s2")] }

/-- A trivial commit-log oracle. -/
def gitLogEx : String → String → String → List GitCommit := fun _ _ _ => []

/-- Decidable equality on `Except`, for evaluating concrete outcomes. -/
instance {ε α : Type} [DecidableEq ε] [DecidableEq α] : DecidableEq (Except ε α) := fun x y =>
  match x, y with
  | .ok a, .ok b =>
      if h : a = b then isTrue (by rw [h]) else isFalse (fun hh => by cases hh; exact h rfl)
  | .error a, .error b =>
      if h : a = b then isTrue (by rw [h]) else isFalse (fun hh => by cases hh; exact h rfl)
  | .ok _, .error _ => isFalse (fun hh => by cases hh)
  | .error _, .ok _ => isFalse (fun hh => by cases hh)

-- ---------------------------------------------------------------------
-- Helper lemmas
-- ---------------------------------------------------------------------

/-- Appending makes the right part a substring of the result. -/
theorem strContains_append (a b : String) : strContains (a ++ b) b = true := by
  unfold strContains
  apply decide_eq_true
  exact ⟨a.data, [], by simp⟩

-- ---------------------------------------------------------------------
-- C8: command executor behaviour
-- ---------------------------------------------------------------------

/-- C8: `runCmd` never raises on a nonzero exit when strict mode is off —
it returns the exit code with the captured stdout and stderr; in strict
mode a nonzero exit raises a `VCSException` whose message carries the
captured stderr; and a zero exit never raises in either mode. -/
theorem runCmd_strict_mode_spec (args : List String) (r : CmdResult) :
    runCmd args r false = .ok (r.code, r.out, r.err)
    ∧ (r.code ≠ 0 →
        ∃ e, runCmd args r true = .error e ∧ strContains e.msg r.err = true)
    ∧ (r.code = 0 → ∀ check, runCmd args r check = .ok (r.code, r.out, r.err)) := by
  refine ⟨by simp [runCmd], fun h => ?_, fun h check => by simp [runCmd, h]⟩
  refine ⟨⟨runCmdFailMsg args r.code r.out r.err⟩, by simp [runCmd, h], ?_⟩
  unfold runCmdFailMsg
  exact strContains_append _ _

/-- Witness for C8 at a concrete failing and a concrete succeeding
process result. -/
theorem runCmd_strict_mode_spec_witness :
    (∃ e, runCmd ["svn", "update"] ⟨1, "", "boom"⟩ true = .error e
        ∧ strContains e.msg "boom" = true)
    ∧ runCmd ["svn", "update"] ⟨0, "ok", ""⟩ true = .ok (0, "ok", "") :=
  ⟨(runCmd_strict_mode_spec ["svn", "update"] ⟨1, "", "boom"⟩).2.1 (by decide),
   (runCmd_strict_mode_spec ["svn", "update"] ⟨0, "ok", ""⟩).2.2 rfl true⟩

-- ---------------------------------------------------------------------
-- C1: lock recovery policy
-- ---------------------------------------------------------------------

/-- C1: if the wrapped `svn` command exits nonzero and its stderr matches
one of the fixed lock signatures, `_svn` runs exactly one non-aggressive
cleanup against the same repository and re-issues the original command
exactly once; on a nonzero exit without a lock signature, or on a zero
exit, no cleanup and no retry occur. -/
theorem svn_lock_recovery_retry (repo : String) (args : List String)
    (check : Bool) (first retry : CmdResult) :
    (first.code ≠ 0 ∧ lockSignature first.err = true →
      (svn_call repo args check first retry).1
          = [.runCommand repo ("svn" :: args), .cleanupRun repo false,
             .runCommand repo ("svn" :: args)]
        ∧ ((svn_call repo args check first retry).1.countP isCleanupAction = 1
            ∧ (svn_call repo args check first retry).1.countP isRunAction = 2))
    ∧ (first.code = 0 ∨ lockSignature first.err = false →
      (svn_call repo args check first retry).1
          = [.runCommand repo ("svn" :: args)]
        ∧ ((svn_call repo args check first retry).1.countP isCleanupAction = 0
            ∧ (svn_call repo args check first retry).1.countP isRunAction = 1)) := by
  constructor
  · intro h
    simp [svn_call, h.1, h.2, List.countP, List.countP.go, isCleanupAction, isRunAction]
  · intro h
    rcases h with h | h
    · simp [svn_call, h, List.countP, List.countP.go, isCleanupAction, isRunAction]
    · simp [svn_call, h, List.countP, List.countP.go, isCleanupAction, isRunAction]

/-- Witness for C1: a locked failure triggers one cleanup and one retry;
an unrelated failure triggers neither. -/
theorem svn_lock_recovery_retry_witness :
    ((svn_call "/wc" ["update"] false ⟨1, "", "svn: E155004: working copy locked"⟩
        ⟨0, "", ""⟩).1.countP isCleanupAction = 1
      ∧ (svn_call "/wc" ["update"] false ⟨1, "", "svn: E155004: working copy locked"⟩
        ⟨0, "", ""⟩).1.countP isRunAction = 2)
    ∧ ((svn_call "/wc" ["update"] false ⟨1, "", "svn: E170013: network trouble"⟩
        ⟨0, "", ""⟩).1.countP isCleanupAction = 0
      ∧ (svn_call "/wc" ["update"] false ⟨1, "", "svn: E170013: network trouble"⟩
        ⟨0, "", ""⟩).1.countP isRunAction = 1) :=
  ⟨(svn_lock_recovery_retry "/wc" ["update"] false
      ⟨1, "", "svn: E155004: working copy locked"⟩ ⟨0, "", ""⟩).1
      (by refine ⟨by decide, by decide⟩) |>.2,
   (svn_lock_recovery_retry "/wc" ["update"] false
      ⟨1, "", "svn: E170013: network trouble"⟩ ⟨0, "", ""⟩).2
      (Or.inr (by decide)) |>.2⟩

-- ---------------------------------------------------------------------
-- C2: change aggregation ordering
-- ---------------------------------------------------------------------

/-- C2: `collect_update_result` concatenates the main repository's
records with those of every external and sorts the combined list
ascending by the best-effort integer interpretation of the revision
identifier (`revKey`, with non-parsing identifiers mapped to the key `0`,
the lowest key occurring when all parsing identifiers are nonnegative, as
SVN revision numbers are); in particular merging main changes `[r5, r7]`
with an external's `[r6]` yields `[r5, r6, r7]`. -/
theorem collect_update_result_merge_sorted (st : SvnState)
    (main : List RevisionChange) (exts : List (String × List RevisionChange)) :
    (∀ u, collect_update_result st main exts = .ok u →
        u.revision_changes = aggregated_changes main exts)
    ∧ List.Sorted revLE (aggregated_changes main exts)
    ∧ (aggregated_changes main exts).Perm (main ++ (exts.map (·.2)).flatten)
    ∧ ((∀ c ∈ main ++ (exts.map (·.2)).flatten, 0 ≤ revKey c) →
        ∀ c ∈ aggregated_changes main exts, pyInt c.revision = none →
          ∀ d ∈ aggregated_changes main exts, revKey c ≤ revKey d)
    ∧ aggregated_changes [⟨"5", "a", "t", "m", []⟩, ⟨"7", "a", "t", "m", []⟩]
        [("url", [⟨"6", "a", "t", "m", []⟩])]
        = [⟨"5", "a", "t", "m", []⟩, ⟨"6", "a", "t", "m", []⟩, ⟨"7", "a", "t", "m", []⟩] := by
  refine ⟨?_, List.sorted_insertionSort revLE _, List.perm_insertionSort revLE _,
    ?_, by decide⟩
  · intro u h
    unfold collect_update_result at h
    split at h
    · cases h
    · cases h
      rfl
  · intro hnn c hc hcnone d hd
    have hck : revKey c = 0 := by simp [revKey, hcnone]
    have hd' : d ∈ main ++ (exts.map (·.2)).flatten :=
      (List.perm_insertionSort revLE _).subset hd
    have := hnn d hd'
    omega

/-- Witness for C2: the end-to-end `[r5, r7]` + `[r6]` example through
`collect_update_result`, and a non-parsing identifier receiving the
lowest key. -/
theorem collect_update_result_merge_sorted_witness :
    (UpdateResult.mk "5" "7"
        [⟨"5", "a", "t", "m", []⟩, ⟨"6", "a", "t", "m", []⟩,
         ⟨"7", "a", "t", "m", []⟩]).revision_changes
      = aggregated_changes [⟨"5", "a", "t", "m", []⟩, ⟨"7", "a", "t", "m", []⟩]
          [("url", [⟨"6", "a", "t", "m", []⟩])]
    ∧ revKey ⟨"x", "a", "t", "m", []⟩ ≤ revKey ⟨"7", "a", "t", "m", []⟩ :=
  ⟨(collect_update_result_merge_sorted ⟨some "5", some "7"⟩
      [⟨"5", "a", "t", "m", []⟩, ⟨"7", "a", "t", "m", []⟩]
      [("url", [⟨"6", "a", "t", "m", []⟩])]).1
      (UpdateResult.mk "5" "7"
        [⟨"5", "a", "t", "m", []⟩, ⟨"6", "a", "t", "m", []⟩, ⟨"7", "a", "t", "m", []⟩])
      (by decide),
   (collect_update_result_merge_sorted ⟨some "5", some "7"⟩
      [⟨"7", "a", "t", "m", []⟩] [("url", [⟨"x", "a", "t", "m", []⟩])]).2.2.2.1
      (by decide) ⟨"x", "a", "t", "m", []⟩ (by decide) (by decide)
      ⟨"7", "a", "t", "m", []⟩ (by decide)⟩

-- ---------------------------------------------------------------------
-- C3: aggregation precondition
-- ---------------------------------------------------------------------

/-- C3: `collect_update_result` raises the repository-state
`VCSException` whenever `before_update_rev` or `after_update_rev` is
unset — in particular in the initial state, before any `update_to` call —
and produces a result only when both identifiers are set. -/
theorem collect_update_result_requires_sync (main : List RevisionChange)
    (exts : List (String × List RevisionChange)) :
    (∀ st : SvnState,
        st.before_update_rev = none ∨ st.after_update_rev = none →
        collect_update_result st main exts = .error ⟨updateNotRunMsg⟩)
    ∧ collect_update_result initSvnState main exts = .error ⟨updateNotRunMsg⟩
    ∧ (∀ st u, collect_update_result st main exts = .ok u →
        (∃ b, st.before_update_rev = some b) ∧ (∃ a, st.after_update_rev = some a)) := by
  have herr : ∀ st : SvnState,
      st.before_update_rev = none ∨ st.after_update_rev = none →
      collect_update_result st main exts = .error ⟨updateNotRunMsg⟩ := by
    intro st h
    rcases h with h | h <;> simp [collect_update_result, pyTruthyStrOpt, h]
  refine ⟨herr, herr initSvnState (Or.inl rfl), ?_⟩
  intro st u h
  unfold collect_update_result at h
  split at h
  · cases h
  · rename_i hcond
    constructor
    · cases hb : st.before_update_rev with
      | none => exact absurd (by simp [pyTruthyStrOpt, hb]) hcond
      | some b => exact ⟨b, rfl⟩
    · cases ha : st.after_update_rev with
      | none => exact absurd (by simp [pyTruthyStrOpt, ha]) hcond
      | some a => exact ⟨a, rfl⟩

/-- Witness for C3: aggregation in the initial state fails with the
repository-state error; after a synchronization both markers are set. -/
theorem collect_update_result_requires_sync_witness :
    collect_update_result ⟨none, some "9"⟩ [] [] = .error ⟨updateNotRunMsg⟩
    ∧ ((∃ b, (update_to_state "1" "2").before_update_rev = some b)
        ∧ (∃ a, (update_to_state "1" "2").after_update_rev = some a)) :=
  ⟨(collect_update_result_requires_sync [] []).1 ⟨none, some "9"⟩ (Or.inl rfl),
   (collect_update_result_requires_sync [] []).2.2 (update_to_state "1" "2")
     ⟨"1", "2", []⟩ (by decide)⟩

-- ---------------------------------------------------------------------
-- C9 / C10: git sync engine
-- ---------------------------------------------------------------------

/-- C9 (code bug): evaluated at an existing destination with all
arguments left at their defaults, `update_repo` issues the hard reset
and the force clean of the main tree and of the submodules — the
destructive steps run by default, because the signature defaults are
`reset=True, clean=True`, contradicting the function's own docstring
("默认二者都 False（安全）") and the claimed opt-in behaviour.  Each step
does follow its own flag: with both flags off no destructive command is
issued, and each flag alone contributes exactly its own pair. -/
theorem update_repo_destructive_defaults :
    (GitAction.resetHardMain ∈ (update_repo wEx gitLogEx "url" "dest").1
      ∧ GitAction.resetHardSubs ∈ (update_repo wEx gitLogEx "url" "dest").1
      ∧ GitAction.cleanMain ∈ (update_repo wEx gitLogEx "url" "dest").1
      ∧ GitAction.cleanSubs ∈ (update_repo wEx gitLogEx "url" "dest").1)
    ∧ (update_repo wEx gitLogEx "url" "dest" none true true false false).1.filter
        isDestructive = []
    ∧ (update_repo wEx gitLogEx "url" "dest" none true true true false).1.filter
        isDestructive = [.resetHardMain, .resetHardSubs]
    ∧ (update_repo wEx gitLogEx "url" "dest" none true true false true).1.filter
        isDestructive = [.cleanMain, .cleanSubs] := by
  decide

/-- C10: on a fresh clone (`dest` does not exist) the result records
`from = None`, no main-repository commits and an empty submodules list,
whatever submodule states the clone materialized; and in general an
entry appears in `submodules` only for a submodule whose commit existed
before the run (present and truthy in the before-snapshot) and changed
during it, carrying its commit range. -/
theorem update_repo_fresh_clone_result (w : GitWorld)
    (gitLog : String → String → String → List GitCommit)
    (url dest : String) (branch : Option String) (recursive lfs reset clean : Bool) :
    (w.destExists = false →
      (update_repo w gitLog url dest branch recursive lfs reset clean).2.repo_from = none
        ∧ (update_repo w gitLog url dest branch recursive lfs reset clean).2.repo_commits = []
        ∧ (update_repo w gitLog url dest branch recursive lfs reset clean).2.submodules = [])
    ∧ (∀ e ∈ (update_repo w gitLog url dest branch recursive lfs reset clean).2.submodules,
        ∃ old, pyDictGet e.path (subsBeforeOf w) = some old ∧ old ≠ ""
          ∧ old ≠ e.to_commit ∧ e.from_commit = old
          ∧ e.commits = get_commits_between gitLog (dest ++ "/" ++ e.path) old e.to_commit) := by
  constructor
  · intro h
    refine ⟨by simp [update_repo, mainBeforeOf, h], ?_, ?_⟩
    · simp [update_repo, mainBeforeOf, h, pyTruthyStrOpt]
    · have hsb : subsBeforeOf w = [] := by
        simp [subsBeforeOf, mainBeforeOf, h, pyTruthyStrOpt]
      simp [update_repo, hsb, pyDictGet]
  · intro e he
    simp only [update_repo] at he
    rw [List.mem_filterMap] at he
    obtain ⟨sn, _, hf⟩ := he
    cases hpd : pyDictGet sn.1 (subsBeforeOf w) with
    | none => rw [hpd] at hf; dsimp only at hf; cases hf
    | some old =>
        rw [hpd] at hf
        dsimp only at hf
        by_cases hco : old ≠ "" ∧ old ≠ sn.2
        · rw [if_pos hco] at hf
          obtain rfl := Option.some.inj hf
          exact ⟨old, hpd, hco.1, hco.2, rfl, rfl⟩
        · rw [if_neg hco] at hf; cases hf

/-- Witness for C10: a fresh clone that materialized one submodule still
reports no submodule ranges; an existing destination whose submodule
commit changed reports exactly its range. -/
theorem update_repo_fresh_clone_result_witness :
    ((update_repo wFresh gitLogEx "u" "d").2.repo_from = none
      ∧ (update_repo wFresh gitLogEx "u" "d").2.repo_commits = []
      ∧ (update_repo wFresh gitLogEx "u" "d").2.submodules = [])
    ∧ (∃ old, pyDictGet "sub/m" (subsBeforeOf wEx) = some old ∧ old ≠ ""
        ∧ old ≠ "s2" ∧ "s1" = old ∧ ([] : List GitCommit)
            = get_commits_between gitLogEx ("d" ++ "/" ++ "sub/m") old "s2") :=
  ⟨(update_repo_fresh_clone_result wFresh gitLogEx "u" "d" none true true true true).1 rfl,
   (update_repo_fresh_clone_result wEx gitLogEx "u" "d" none true true true true).2
     ⟨"sub/m", "s1", "s2", []⟩ (by decide)⟩

-- ---------------------------------------------------------------------
-- C4: recursive external discovery terminates, visiting each path once
-- ---------------------------------------------------------------------

/-- Fuel sufficiency and invariant preservation for the scan of
`get_all_externals`: whenever the fuel is at least the number of not yet
visited physical paths, the scan completes, only grows the visited set,
keeps the processed list duplicate-free, and records every processed
path in the visited set. -/
theorem scanF_total_spec {P : Type} [DecidableEq P] [Fintype P]
    (g : P → List P) (isDir : P → Bool) :
    ∀ fuel : Nat, ∀ (st : ScanState P) (path : P),
      (Finset.univ \ st.visited).card ≤ fuel → scanInv st →
      ∃ st', scanF g isDir fuel st path = some st'
        ∧ st.visited ⊆ st'.visited ∧ scanInv st' := by
  intro fuel
  induction fuel with
  | zero =>
      intro st path hb hInv
      by_cases h : path ∈ st.visited
      · exact ⟨st, by simp [scanF, h], Finset.Subset.refl _, hInv⟩
      · exfalso
        have hmem : path ∈ Finset.univ \ st.visited :=
          Finset.mem_sdiff.mpr ⟨Finset.mem_univ _, h⟩
        have := Finset.card_pos.mpr ⟨path, hmem⟩
        omega
  | succ n ih =>
      have hQ : ∀ (children : List P) (st : ScanState P),
          (Finset.univ \ st.visited).card ≤ n → scanInv st →
          ∃ st', scanChildrenF g isDir n st children = some st'
            ∧ st.visited ⊆ st'.visited ∧ scanInv st' := by
        intro children
        induction children with
        | nil =>
            intro st hb hInv
            exact ⟨st, by simp [scanChildrenF], Finset.Subset.refl _, hInv⟩
        | cons e rest ihr =>
            intro st hb hInv
            by_cases hd : isDir e = true
            · obtain ⟨st1, h1, hsub1, hinv1⟩ :=
                ih { st with result := st.result ++ [e] } e hb hInv
              have hb1 : (Finset.univ \ st1.visited).card ≤ n := by
                have hss : Finset.univ \ st1.visited ⊆ Finset.univ \ st.visited :=
                  Finset.sdiff_subset_sdiff (Finset.Subset.refl _) hsub1
                have := Finset.card_le_card hss
                omega
              obtain ⟨st2, h2, hsub2, hinv2⟩ := ihr st1 hb1 hinv1
              exact ⟨st2, by simp [scanChildrenF, hd, h1, h2],
                Finset.Subset.trans hsub1 hsub2, hinv2⟩
            · obtain ⟨st2, h2, hsub2, hinv2⟩ := ihr st hb hInv
              exact ⟨st2, by simp [scanChildrenF, hd, h2], hsub2, hinv2⟩
      intro st path hb hInv
      by_cases h : path ∈ st.visited
      · exact ⟨st, by simp [scanF, h], Finset.Subset.refl _, hInv⟩
      · have hmem : path ∈ Finset.univ \ st.visited :=
          Finset.mem_sdiff.mpr ⟨Finset.mem_univ _, h⟩
        have hb2 : (Finset.univ \ insert path st.visited).card ≤ n := by
          have hsd : Finset.univ \ insert path st.visited
              = (Finset.univ \ st.visited).erase path := by
            ext x
            simp only [Finset.mem_sdiff, Finset.mem_erase, Finset.mem_insert,
              Finset.mem_univ, true_and]
            tauto
          have hpos : 0 < (Finset.univ \ st.visited).card :=
            Finset.card_pos.mpr ⟨path, hmem⟩
          rw [hsd, Finset.card_erase_of_mem hmem]
          omega
        have hinv2 : scanInv (P := P)
            { visited := insert path st.visited
              result := st.result
              processed := st.processed ++ [path] } := by
          constructor
          · refine (List.nodup_append).mpr ⟨hInv.1, List.nodup_singleton _, ?_⟩
            intro x hx hx'
            have : x = path := by simpa using hx'
            exact h (this ▸ hInv.2 x hx)
          · intro x hx
            rcases List.mem_append.mp hx with hx | hx
            · exact Finset.mem_insert_of_mem (hInv.2 x hx)
            · have : x = path := by simpa using hx
              simp [this]
        obtain ⟨st', h', hsub', hinv'⟩ :=
          hQ (g path)
            { visited := insert path st.visited
              result := st.result
              processed := st.processed ++ [path] } hb2 hinv2
        refine ⟨st', ?_, ?_, hinv'⟩
        · rw [scanF]
          simp only [h, if_false]
          exact h'
        · exact Finset.Subset.trans (Finset.subset_insert _ _) hsub'

/-- C4: for every external graph over a finite set of physical paths —
including cyclic ones — the recursive discovery of `get_all_externals`
is a finite call: the scan completes within `Fintype.card P` expansions,
processes each physical path at most once (the processed list is
duplicate-free), and records every processed path in the per-traversal
visited set.  On the concrete cyclic graph A ↔ B the call terminates and
processes exactly the two paths, once each. -/
theorem get_all_externals_terminates_visits_once :
    (∀ (P : Type) [DecidableEq P] [Fintype P] (g : P → List P) (isDir : P → Bool)
        (root : P),
      ∃ st' : ScanState P,
        scanF g isDir (Fintype.card P) ⟨∅, [], []⟩ root = some st'
          ∧ st'.processed.Nodup
          ∧ (∀ x ∈ st'.processed, x ∈ st'.visited)
          ∧ get_all_externals g isDir root = some st'.result)
    ∧ (get_all_externals cycG cycD (0 : Fin 2) = some [1, 0]
        ∧ (scanF cycG cycD (Fintype.card (Fin 2)) ⟨∅, [], []⟩ (0 : Fin 2)).map
            ScanState.processed = some [0, 1]) := by
  constructor
  · intro P ideq ifin g isDir root
    obtain ⟨st', h, _, hInv⟩ :=
      scanF_total_spec g isDir (Fintype.card P) ⟨∅, [], []⟩ root
        (by simp) ⟨List.nodup_nil, by simp⟩
    exact ⟨st', h, hInv.1, hInv.2, by simp [get_all_externals, h]⟩
  · constructor
    · simp +decide [get_all_externals, scanF, scanChildrenF, cycG, cycD]
    · simp +decide [scanF, scanChildrenF, cycG, cycD]

-- ---------------------------------------------------------------------
-- C5: workspace cleaning does not terminate on a cyclic external graph
-- ---------------------------------------------------------------------

/-- C5 (code bug): on the cyclic external graph A ↔ B,
`ensure_clean_workspace` never completes, for any recursion budget:
`clean_externals` re-enters the full `ensure_clean_workspace` on every
element of `get_all_externals()` — whose traversal-local visited set
does not persist across the re-entry (and whose result on this graph
even contains the starting path itself) — so the mutual recursion
A → B → A → … never bottoms out. -/
theorem ensure_clean_workspace_cyclic_diverges :
    ∀ fuel : Nat,
      ensure_clean_workspaceF cycG cycD fuel (0 : Fin 2) = none
        ∧ ensure_clean_workspaceF cycG cycD fuel (1 : Fin 2) = none := by
  intro fuel
  induction fuel with
  | zero =>
      exact ⟨by simp [ensure_clean_workspaceF], by simp [ensure_clean_workspaceF]⟩
  | succ n ih =>
      have h0 : get_all_externals cycG cycD (0 : Fin 2) = some [1, 0] := by
        simp +decide [get_all_externals, scanF, scanChildrenF, cycG, cycD]
      have h1 : get_all_externals cycG cycD (1 : Fin 2) = some [0, 1] := by
        simp +decide [get_all_externals, scanF, scanChildrenF, cycG, cycD]
      constructor
      · simp only [ensure_clean_workspaceF, h0, clean_externals_listF, cycD,
          if_true, ih.1, ih.2, Option.map_none]
        rfl
      · simp only [ensure_clean_workspaceF, h1, clean_externals_listF, cycD,
          if_true, ih.1, ih.2, Option.map_none]
        rfl

-- ---------------------------------------------------------------------
-- C6: sparse path rules are expanded parent-before-child
-- ---------------------------------------------------------------------

/-- Splitting at `/` yields one more component than there are
separators. -/
theorem splitSlash_length (l : List Char) :
    (splitSlash l).length = l.countP (· = '/') + 1 := by
  induction l with
  | nil => simp [splitSlash]
  | cons c cs ih =>
      by_cases h : c = '/'
      · subst h
        simp [splitSlash, List.countP_cons, ih]
      · cases hs : splitSlash cs with
        | nil => rw [hs] at ih; simp at ih
        | cons l0 ls =>
            rw [hs] at ih
            simp only [List.length_cons] at ih
            simp [splitSlash, h, hs, List.countP_cons]
            omega

/-- A proper ancestor path has a strictly smaller `_depth` sort key. -/
theorem ancestor_ruleDepth_lt (p q : String) (h : isAncestorPath p q) :
    ruleDepth p < ruleDepth q := by
  obtain ⟨⟨t, ht⟩, hne⟩ := h
  have htne : t ≠ [] := by
    rintro rfl
    exact hne (by simpa using ht)
  have hlen : (pathComponents p).length < (pathComponents q).length := by
    rw [← ht, List.length_append]
    have : 0 < t.length := List.length_pos.mpr htne
    omega
  have hp : (pathComponents p).length = ruleDepth p + 1 := by
    unfold pathComponents ruleDepth pyCountSlash
    exact splitSlash_length _
  have hq : (pathComponents q).length = ruleDepth q + 1 := by
    unfold pathComponents ruleDepth pyCountSlash
    exact splitSlash_length _
  omega

/-- C6: for every input ordering of a project's path rules,
`ensure_sparse_workspace` issues the per-rule update calls stably sorted
ascending by path depth (separator count), issuing one call per rule;
hence a rule whose path is a proper ancestor of another rule's path is
expanded strictly before it, and for rules `["a", "a/b"]` (in either
input order) the expansion of `"a"` is issued strictly first. -/
theorem sparse_rules_parent_before_child (paths : List PathRule) :
    List.Pairwise (fun c d => callDepth c ≤ callDepth d) (sparse_update_calls paths)
    ∧ (sparse_update_calls paths).Perm (paths.map toUpdateCall)
    ∧ (∀ r1 ∈ paths, ∀ r2 ∈ paths,
        isAncestorPath r1.path r2.path →
        ∀ (i j : Nat) (hi : i < (sparse_update_calls paths).length)
          (hj : j < (sparse_update_calls paths).length),
          (sparse_update_calls paths).get ⟨i, hi⟩ = toUpdateCall r1 →
          (sparse_update_calls paths).get ⟨j, hj⟩ = toUpdateCall r2 →
          i < j)
    ∧ (sparse_update_calls [⟨"a", none⟩, ⟨"a/b", none⟩]
          = [("a", "infinity"), ("a/b", "infinity")]
        ∧ sparse_update_calls [⟨"a/b", none⟩, ⟨"a", none⟩]
          = [("a", "infinity"), ("a/b", "infinity")]) := by
  have hsorted : List.Pairwise (fun c d => callDepth c ≤ callDepth d)
      (sparse_update_calls paths) := by
    unfold sparse_update_calls
    refine List.Pairwise.map toUpdateCall ?_ (List.sorted_insertionSort ruleLE paths)
    intro a b hab
    exact hab
  refine ⟨hsorted, ?_, ?_, by decide, by decide⟩
  · unfold sparse_update_calls
    exact (List.perm_insertionSort ruleLE paths).map toUpdateCall
  · intro r1 _ r2 _ hanc i j hi hj hgi hgj
    have hdep : ruleDepth r1.path < ruleDepth r2.path := ancestor_ruleDepth_lt _ _ hanc
    by_contra hij
    have hji : j ≤ i := Nat.le_of_not_lt hij
    rcases Nat.lt_or_ge j i with hlt | hge
    · have := (List.pairwise_iff_get.mp hsorted) ⟨j, hj⟩ ⟨i, hi⟩ hlt
      rw [hgi, hgj] at this
      have h1 : callDepth (toUpdateCall r1) = ruleDepth r1.path := rfl
      have h2 : callDepth (toUpdateCall r2) = ruleDepth r2.path := rfl
      rw [h1, h2] at this
      omega
    · have hij' : i = j := Nat.le_antisymm hge hji
      subst hij'
      rw [hgi] at hgj
      have hstrip : pyStripSlash r1.path = pyStripSlash r2.path :=
        congrArg Prod.fst hgj
      have : pathComponents r1.path = pathComponents r2.path := by
        unfold pathComponents
        rw [hstrip]
      exact hanc.2 this

/-- Witness for C6: in the two-rule example (child listed first), the
expansion of the parent `"a"` (position 0) precedes the expansion of
`"a/b"` (position 1). -/
theorem sparse_rules_parent_before_child_witness : (0 : Nat) < 1 :=
  (sparse_rules_parent_before_child [⟨"a/b", none⟩, ⟨"a", none⟩]).2.2.1
    ⟨"a", none⟩ (by decide) ⟨"a/b", none⟩ (by decide) (by decide)
    0 1 (by decide) (by decide) (by decide) (by decide)

-- ---------------------------------------------------------------------
-- C7: diff line-capping
-- ---------------------------------------------------------------------

/-- Lines produced by `splitlines` contain no newline character. -/
theorem pySplitlinesChars_no_newline :
    ∀ cs : List Char, ∀ l ∈ pySplitlinesChars cs, '\n' ∉ l := by
  intro cs
  induction cs with
  | nil => intro l hl; simp [pySplitlinesChars] at hl
  | cons c cs ih =>
      intro l hl
      by_cases h : c = '\n'
      · subst h
        simp only [pySplitlinesChars, if_true] at hl
        rcases List.mem_cons.mp hl with rfl | hl
        · simp
        · exact ih l hl
      · simp only [pySplitlinesChars, h, if_false] at hl
        cases hs : pySplitlinesChars cs with
        | nil =>
            rw [hs] at hl
            rcases List.mem_cons.mp hl with rfl | hl
            · simpa using fun hc => h hc.symm
            · simp at hl
        | cons l0 ls =>
            rw [hs] at hl
            rcases List.mem_cons.mp hl with rfl | hl
            · intro hmem
              rcases List.mem_cons.mp hmem with hc | hc
              · exact h hc.symm
              · exact ih l0 (hs ▸ List.mem_cons_self l0 ls) hc
            · exact ih l (hs ▸ List.mem_cons_of_mem l0 hl) 

/-- `splitlines` of a newline-free text is that text as its only line
(or no line at all when the text is empty). -/
theorem pySplitlinesChars_single :
    ∀ l : List Char, '\n' ∉ l →
      pySplitlinesChars l = if l = [] then [] else [l] := by
  intro l
  induction l with
  | nil => intro _; simp [pySplitlinesChars]
  | cons c cs ih =>
      intro hnl
      have hc : ¬ c = '\n' := fun h => hnl (h ▸ List.mem_cons_self c cs)
      have hcs : '\n' ∉ cs := fun h => hnl (List.mem_cons_of_mem c h)
      simp only [pySplitlinesChars, hc, if_false]
      rw [ih hcs]
      by_cases h : cs = []
      · subst h; simp
      · simp [h]

/-- `joinNL` unfolding on a cons with nonempty tail. -/
theorem joinNL_cons (x : List Char) (ys : List (List Char)) (h : ys ≠ []) :
    joinNL (x :: ys) = x ++ '\n' :: joinNL ys := by
  cases ys with
  | nil => exact absurd rfl h
  | cons y ys' => rfl

/-- `splitlines` peels one newline-free line off the front. -/
theorem pySplitlinesChars_line_cons :
    ∀ x rest : List Char, '\n' ∉ x →
      pySplitlinesChars (x ++ '\n' :: rest) = x :: pySplitlinesChars rest := by
  intro x
  induction x with
  | nil => intro rest _; simp [pySplitlinesChars]
  | cons c x' ih =>
      intro rest hnl
      have hc : ¬ c = '\n' := fun h => hnl (h ▸ List.mem_cons_self c x')
      have hx' : '\n' ∉ x' := fun h => hnl (List.mem_cons_of_mem c h)
      simp only [List.cons_append, pySplitlinesChars, hc, if_false, List.append_eq]
      rw [ih rest hx']

/-- Round trip: `splitlines` of `"\n".join(parts)` recovers the parts
when each part is newline-free and the last part is nonempty. -/
theorem pySplitlinesChars_joinNL :
    ∀ (ls : List (List Char)) (m : List Char),
      (∀ l ∈ ls, '\n' ∉ l) → '\n' ∉ m → m ≠ [] →
      pySplitlinesChars (joinNL (ls ++ [m])) = ls ++ [m] := by
  intro ls
  induction ls with
  | nil =>
      intro m _ hm hne
      simp only [List.nil_append, joinNL]
      rw [pySplitlinesChars_single m hm]
      simp [hne]
  | cons x ls ih =>
      intro m hls hm hne
      have hx : '\n' ∉ x := hls x (List.mem_cons_self x ls)
      have hls' : ∀ l ∈ ls, '\n' ∉ l := fun l hl => hls l (List.mem_cons_of_mem x hl)
      rw [List.cons_append, joinNL_cons x (ls ++ [m]) (by simp),
        pySplitlinesChars_line_cons _ _ hx, ih m hls' hm hne]

/-- `Nat.digitChar` never yields a newline. -/
theorem digitChar_ne_newline (n : Nat) : Nat.digitChar n ≠ '\n' := by
  rcases Nat.lt_or_ge n 16 with hlt | hge
  · interval_cases n <;> decide
  · have hstar : Nat.digitChar n = '*' := by
      unfold Nat.digitChar
      repeat rw [if_neg (by omega)]
    rw [hstar]
    decide

/-- `Nat.toDigitsCore` preserves newline-freeness. -/
theorem toDigitsCore_no_newline (b : Nat) :
    ∀ (fuel n : Nat) (ds : List Char), (∀ c ∈ ds, c ≠ '\n') →
      ∀ c ∈ Nat.toDigitsCore b fuel n ds, c ≠ '\n' := by
  intro fuel
  induction fuel with
  | zero => intro n ds hds; simpa [Nat.toDigitsCore] using hds
  | succ fuel ih =>
      intro n ds hds c hc
      simp only [Nat.toDigitsCore] at hc
      have hcons : ∀ x ∈ Nat.digitChar (n % b) :: ds, x ≠ '\n' := by
        intro x hx
        rcases List.mem_cons.mp hx with rfl | hx
        · exact digitChar_ne_newline _
        · exact hds x hx
      split at hc
      · exact hcons c hc
      · exact ih (n / b) (Nat.digitChar (n % b) :: ds) hcons c hc

/-- The decimal representation of a natural number is newline-free. -/
theorem repr_no_newline (k : Nat) : '\n' ∉ (Nat.repr k).data := by
  intro hmem
  exact toDigitsCore_no_newline 10 (k + 1) k [] (by simp) '\n' hmem rfl

/-- The truncation marker is a single newline-free, nonempty line. -/
theorem truncMarker_line (k : Nat) :
    '\n' ∉ (truncMarker k).data ∧ (truncMarker k).data ≠ [] := by
  constructor
  · intro hmem
    have hdata : (truncMarker k).data
        = "...(剩余 ".data ++ (Nat.repr k).data ++ " 行已截断)".data := rfl
    rw [hdata] at hmem
    rcases List.mem_append.mp hmem with hmem | hmem
    · rcases List.mem_append.mp hmem with hmem | hmem
      · exact absurd hmem (by decide)
      · exact repr_no_newline k hmem
    · exact absurd hmem (by decide)
  · intro h
    have hdata : (truncMarker k).data
        = "...(剩余 ".data ++ (Nat.repr k).data ++ " 行已截断)".data := rfl
    rw [hdata, List.append_eq_nil] at h
    exact absurd h.2 (by decide)

/-- C7: for every line cap `N` and underlying diff text: when the diff
has `M > N` lines, `get_diff` returns exactly the first `N` content
lines followed by exactly one trailing marker line stating that `M − N`
lines were omitted; when `M ≤ N` it returns the diff text unmodified. -/
theorem get_diff_line_cap_spec (out : String) (N : Nat) :
    (N < (pySplitlinesChars out.data).length →
      pySplitlinesChars (get_diff out N).data
          = (pySplitlinesChars out.data).take N
            ++ [(truncMarker ((pySplitlinesChars out.data).length - N)).data]
        ∧ ((pySplitlinesChars out.data).take N).length = N)
    ∧ ((pySplitlinesChars out.data).length ≤ N → get_diff out N = out) := by
  constructor
  · intro h
    constructor
    · have hlines : ∀ l ∈ (pySplitlinesChars out.data).take N, '\n' ∉ l :=
        fun l hl => pySplitlinesChars_no_newline out.data l (List.take_subset N _ hl)
      have hmark := truncMarker_line ((pySplitlinesChars out.data).length - N)
      simp only [get_diff, if_pos h]
      exact pySplitlinesChars_joinNL _ _ hlines hmark.1 hmark.2
    · simp [List.length_take, Nat.min_eq_left (Nat.le_of_lt h)]
  · intro h
    simp only [get_diff]
    rw [if_neg (by omega)]

/-- Witness for C7: a three-line diff capped at two lines keeps two
lines plus one marker stating one omitted line; a two-line diff capped
at five lines is returned unmodified. -/
theorem get_diff_line_cap_spec_witness :
    pySplitlinesChars (get_diff "a\nb\nc" 2).data
        = (pySplitlinesChars "a\nb\nc".data).take 2
          ++ [(truncMarker ((pySplitlinesChars "a\nb\nc".data).length - 2)).data]
    ∧ get_diff "a\nb" 5 = "a\nb" :=
  ⟨((get_diff_line_cap_spec "a\nb\nc" 2).1 (by decide)).1,
   (get_diff_line_cap_spec "a\nb" 5).2 (by decide)⟩
